import Mathlib

/-!
Verification of the NSW Live Traffic hazard ingestion and proximity diff
engine (custom_components/nsw_live_traffic) against its specification.

The development shallowly embeds the relevant Python source:
* `Api` models `api.py` (`NswLiveTrafficApiClient.async_get_hazards`) and the
  coordinator dispatch in `coordinator.py` (`_async_update_data`).
* `GeoLoc` models the snapshot-diff core of `geo_location.py`
  (`update_entities`) and its proximity scope check.
* `Util` models `util.py` (`haversine_distance`).
* `Sensor` models `sensor.py`
  (`NswLiveTrafficNearbyHazardCountSensor.native_value`).
-/

namespace Api

/-- A GeoJSON feature as consumed by `async_get_hazards` (api.py line 134):
the merge logic only looks at `feature.get("id")`; the rest of the feature
dictionary is kept opaque in `payload`. An absent `id` key is `none`. -/
structure Feature where
  fid : Option String
  payload : String
deriving DecidableEq, Repr

/-- Python `str(feature.get("id"))` (api.py line 135): `str(None)` is the
truthy string "None"; a string id is unchanged. -/
def pyStr : Option String → String
  | none => "None"
  | some s => s

/-- The merge key actually used by the feed client for a feature. -/
def idKey (f : Feature) : String := pyStr f.fid

/-- Outcome of one HTTP GET against one endpoint URL, as distinguished by
the code in api.py lines 92-176:
* `success fs`: 2xx response whose JSON body is a dict with a `features`
  list (lines 131-143);
* `badShape`: 2xx response that parses but is not a dict with a `features`
  list, or whose `features` value is not a list (lines 144-151);
* `parseError`: 2xx response whose body fails to parse as JSON (lines
  120-127);
* `status c`: non-2xx HTTP status `c` (401/403 handled at lines 98-104,
  400 at lines 107-113, others via `raise_for_status`, lines 158-166);
* `netError`: the request itself raised (timeout/connection error, lines
  153-156 and 168-176). -/
inductive ApiResponse where
  | success (features : List Feature)
  | badShape
  | parseError
  | status (code : Nat)
  | netError
deriving DecidableEq

def API_ENDPOINT_BASE : String := "https://api.transport.nsw.gov.au/v1/live/hazards"

/-- The ordered endpoint variants tried for one category (api.py lines
76-80). -/
def endpointsFor (apiPathSegment : String) : List String :=
  [ API_ENDPOINT_BASE ++ "/" ++ apiPathSegment ++ "/open"
  , API_ENDPOINT_BASE ++ "/" ++ apiPathSegment ++ "/all"
  , API_ENDPOINT_BASE ++ "/" ++ apiPathSegment ]

/-- The per-category endpoint loop of api.py lines 84-176. Returns `some`
features on the first structurally valid response, `none` when the category
fails. A 401 or 403 stops the loop for this category immediately (lines
98-104); every other failure moves to the next variant, and on the last
variant the category fails. -/
def tryEndpoints (env : String → ApiResponse) : List String → Option (List Feature)
  | [] => none
  | url :: rest =>
    match env url with
    | .success fs => some fs
    | .status 401 => none
    | .status 403 => none
    | .status _ => if rest.isEmpty then none else tryEndpoints env rest
    | .badShape => if rest.isEmpty then none else tryEndpoints env rest
    | .parseError => if rest.isEmpty then none else tryEndpoints env rest
    | .netError => if rest.isEmpty then none else tryEndpoints env rest

/-- One iteration of the merge loop in api.py lines 134-141, threading the
accumulated `all_features` list and the `seen_feature_ids` set (modelled as
a list). `if feature_id and feature_id not in seen: append and record;
elif not feature_id: append without dedup`. -/
def mergeStep (acc : List Feature × List String) (f : Feature) :
    List Feature × List String :=
  let k := idKey f
  if k ≠ "" ∧ k ∉ acc.2 then (acc.1 ++ [f], acc.2 ++ [k])
  else if k = "" then (acc.1 ++ [f], acc.2)
  else acc

/-- The exception hierarchy of api.py lines 31-41. Only `invalidApiKey` is
ever raised by `async_get_hazards` (line 57); after that point all
exceptions are caught inside the endpoint loop. -/
inductive ApiError where
  | invalidApiKey
  | forbidden
  | generic
deriving DecidableEq

/-- The category loop of `async_get_hazards` (api.py lines 74-184): each
category's endpoint variants are tried, a successful category's features are
folded into the shared accumulator, a failed category is skipped. The
inter-request sleep has no effect on the result. -/
def fetchLoop (env : String → ApiResponse) :
    List String → (List Feature × List String) → List Feature × List String
  | [], acc => acc
  | p :: rest, acc =>
    match tryEndpoints env (endpointsFor p) with
    | some fs => fetchLoop env rest (fs.foldl mergeStep acc)
    | none => fetchLoop env rest acc

/-- `NswLiveTrafficApiClient.async_get_hazards` (api.py lines 51-187):
raises `InvalidApiKeyError` iff the configured key is falsy (line 55);
otherwise returns the merged FeatureCollection, never raising, even when
every category fails. -/
def async_get_hazards (env : String → ApiResponse) (apiKey : String)
    (selected_api_paths : List String) : Except ApiError (List Feature) :=
  if apiKey = "" then .error .invalidApiKey
  else .ok (fetchLoop env selected_api_paths ([], [])).1

/-- Outcome of one coordinator refresh as seen by Home Assistant. -/
inductive CoordResult where
  | data (features : List Feature)
  | authFailed
  | updateFailed
deriving DecidableEq

/-- `NswLiveTrafficDataUpdateCoordinator._async_update_data`
(coordinator.py lines 63-100): a returned collection always has a
`features` key so the shape check passes; `InvalidApiKeyError` becomes
`ConfigEntryAuthFailed`; other `ApiError`s become `UpdateFailed`. -/
def _async_update_data (env : String → ApiResponse) (apiKey : String)
    (paths : List String) : CoordResult :=
  match async_get_hazards env apiKey paths with
  | .ok fs => .data fs
  | .error .invalidApiKey => .authFailed
  | .error _ => .updateFailed

/-- The concatenation, in category request order, of the feature lists of
the categories that fetch successfully: the stream of features the merge
loop of api.py lines 134-141 consumes. -/
def joinedFeatures (env : String → ApiResponse) (paths : List String) :
    List Feature :=
  (paths.filterMap (fun p => tryEndpoints env (endpointsFor p))).flatten

/-- Reference single-pass first-occurrence deduplication by merge key,
starting from an initial seen set; `Api.fetchLoop` is proved equal to it.
A feature whose key is the empty string is always kept (api.py line 139
can only trigger for a present-but-empty `id`, since `str(None)` is the
non-empty string "None"). -/
def dedupBy (seen : List String) : List Feature → List Feature
  | [] => []
  | f :: rest =>
    let k := idKey f
    if k ≠ "" ∧ k ∉ seen then f :: dedupBy (seen ++ [k]) rest
    else if k = "" then f :: dedupBy seen rest
    else dedupBy seen rest

/-- A feature whose `id` is present and a non-empty string: for these the
merge key is the id itself. -/
def goodId (f : Feature) : Prop := f.fid ≠ none ∧ f.fid ≠ some ""

instance : DecidablePred goodId := fun f =>
  inferInstanceAs (Decidable (f.fid ≠ none ∧ f.fid ≠ some ""))

end Api

namespace GeoLoc

/-- The view of a tracked hazard the differ compares: the values of the
`SIGNIFICANT_ATTRIBUTE_KEYS` (geo_location.py lines 47-58) inside
`extra_state_attributes`, after the None-filter of lines 415-417 (an absent
key and a None value are indistinguishable through `.get`, so each field is
an `Option`). `roads` is the derived list of road names (line 391). -/
structure SigAttrs where
  main_category : Option String
  advice_a : Option String
  other_advice : Option String
  roads : List String
  start_time : Option String
  end_time : Option String
  duration_minutes : Option String
  impact : Option String
  ended : Option Bool
  is_major : Option Bool
deriving DecidableEq, Repr

/-- An entry of a Python dict keyed by hazard id: id paired with the
significant-attribute view of the stored hazard data. -/
abbrev KV := String × SigAttrs

/-- Dictionary lookup on an association list: value at the first matching
key. -/
def alookup (l : List KV) (k : String) : Option SigAttrs :=
  (l.find? (fun kv => decide (kv.1 = k))).map Prod.snd

/-- Python dict assignment `d[k] = v`: replaces the value in place when the
key exists (keeping its position), appends otherwise. -/
def dictInsert (l : List KV) (kv : KV) : List KV :=
  if l.any (fun e => decide (e.1 = kv.1)) then
    l.map (fun e => if e.1 = kv.1 then (e.1, kv.2) else e)
  else l ++ [kv]

/-- Python dict `pop(k)`: removes the entry with key `k`. -/
def dictRemove (l : List KV) (k : String) : List KV :=
  l.filter (fun e => decide (e.1 ≠ k))

/-- Building `hazards_in_scope` (geo_location.py lines 107-136): features
are written into a fresh dict in feed order, a duplicate id overwriting the
earlier value while keeping its position. -/
def mkScope (l : List KV) : List KV := l.foldl dictInsert []

/-- The three transition events fired by `update_entities`:
`EVENT_NEW_HAZARD_NEARBY`, `EVENT_HAZARD_DETAILS_UPDATED`,
`EVENT_HAZARD_CLEARED_NEARBY` (geo_location.py lines 154, 186, 205). -/
inductive Ev where
  | appeared (hid : String)
  | updated (hid : String)
  | cleared (hid : String)
deriving DecidableEq, Repr

/-- The hazard id an event carries. -/
def Ev.evId : Ev → String
  | .appeared i => i
  | .updated i => i
  | .cleared i => i

/-- The event (if any) one in-scope entry produces against the tracked
state captured at pass start (geo_location.py lines 144-195): a new id
fires Appeared; an existing id fires Updated exactly when its significant
attributes changed, and nothing otherwise. -/
def evOf (T0 : List KV) (kv : KV) : Option Ev :=
  match alookup T0 kv.1 with
  | none => some (.appeared kv.1)
  | some old => if old = kv.2 then none else some (.updated kv.1)

/-- One iteration of the first loop of `update_entities` (lines 144-195):
the tracked dict is always written with the new data (entity creation for a
new id, `update_hazard_data` for an existing one — line 174 runs even when
no significant field changed), and at most one event is appended. -/
def diffStep (T0 : List KV) (acc : List KV × List Ev) (kv : KV) :
    List KV × List Ev :=
  (dictInsert acc.1 kv,
   match evOf T0 kv with
   | some e => acc.2 ++ [e]
   | none => acc.2)

/-- One complete diff pass of `update_entities` (geo_location.py lines
74-219) on the already-scope-filtered snapshot: `current_tracked_ids` is
captured first (line 77), the in-scope dict is walked firing
Appeared/Updated and rewriting tracked data, then ids tracked but no longer
in scope are popped and fire Cleared (lines 201-210). Returns the new
tracked dict and the events of the pass in firing order. -/
def diffPass (T : List KV) (Sraw : List KV) : List KV × List Ev :=
  let S := mkScope Sraw
  let r1 := S.foldl (diffStep T) (T, [])
  let clearedKeys := (T.map Prod.fst).filter (fun k => (alookup S k).isNone)
  (clearedKeys.foldl dictRemove r1.1, r1.2 ++ clearedKeys.map Ev.cleared)

/-- A sequence of poll cycles: successive diff passes threading the tracked
state, collecting all events in order. -/
def runPasses (T : List KV) : List (List KV) → List KV × List Ev
  | [] => (T, [])
  | s :: rest =>
    let r1 := diffPass T s
    let r2 := runPasses r1.1 rest
    (r2.1, r1.2 ++ r2.2)

/-- Ids of the Appeared events in a trace, in order, with multiplicity. -/
def appearedIds (evs : List Ev) : List String :=
  evs.filterMap (fun e => match e with | .appeared i => some i | _ => none)

/-- Ids of the Cleared events in a trace, in order, with multiplicity. -/
def clearedIds (evs : List Ev) : List String :=
  evs.filterMap (fun e => match e with | .cleared i => some i | _ => none)

/-- A concrete significant-attribute record (all fields empty), used for
concrete pass evaluations. -/
def sig0 : SigAttrs := ⟨none, none, none, [], none, none, none, none, none, none⟩

end GeoLoc

namespace Util

/-- `math.atan2 y x`: the angle of the point `(x, y)`, in `(-π, π]`. -/
noncomputable def atan2 (y x : ℝ) : ℝ :=
  if 0 < x then Real.arctan (y / x)
  else if x < 0 then
    (if 0 ≤ y then Real.arctan (y / x) + Real.pi
     else Real.arctan (y / x) - Real.pi)
  else (if 0 < y then Real.pi / 2 else if y < 0 then -(Real.pi / 2) else 0)

/-- The haversine formula of util.py lines 23-33 on present coordinates:
degrees to radians, `a = sin²(Δlat/2) + cos·cos·sin²(Δlon/2)`,
`c = 2·atan2(√a, √(1-a))`, scaled by the mean Earth radius 6371 km. -/
noncomputable def havReal (lat1 lon1 lat2 lon2 : ℝ) : ℝ :=
  let rlat1 := lat1 * Real.pi / 180
  let rlon1 := lon1 * Real.pi / 180
  let rlat2 := lat2 * Real.pi / 180
  let rlon2 := lon2 * Real.pi / 180
  let dlon := rlon2 - rlon1
  let dlat := rlat2 - rlat1
  let a := Real.sin (dlat / 2) ^ 2 +
    Real.cos rlat1 * Real.cos rlat2 * Real.sin (dlon / 2) ^ 2
  let c := 2 * atan2 (Real.sqrt a) (Real.sqrt (1 - a))
  6371 * c

/-- `haversine_distance` (util.py lines 14-33): returns `float('inf')`
(modelled by `⊤ : EReal`) when any coordinate is None, the haversine
kilometre distance otherwise; it never raises. -/
noncomputable def haversine_distance (lat1 lon1 lat2 lon2 : Option ℝ) : EReal :=
  match lat1, lon1, lat2, lon2 with
  | some a1, some o1, some a2, some o2 => ((havReal a1 o1 a2 o2 : ℝ) : EReal)
  | _, _, _, _ => ⊤

end Util

namespace GeoLoc

/-- The home-proximity check of geo_location.py lines 123-126: performed
only when the home zone has both coordinates; inclusive comparison of the
haversine distance against `home_radius_km`, with no positivity requirement
on the radius. -/
def geoNearHome (homeLat homeLon : Option ℝ) (homeRadiusKm : ℝ)
    (hLat hLon : Option ℝ) : Prop :=
  match homeLat, homeLon with
  | some a, some o =>
      Util.haversine_distance (some a) (some o) hLat hLon ≤ (homeRadiusKm : EReal)
  | _, _ => False

/-- The device-tracker proximity loop of geo_location.py lines 128-133:
some located tracker is within `device_radius_km` (inclusive), again with
no positivity requirement on the radius. -/
def geoNearDevice (devices : List (ℝ × ℝ)) (devRadiusKm : ℝ)
    (hLat hLon : Option ℝ) : Prop :=
  ∃ d ∈ devices,
    Util.haversine_distance (some d.1) (some d.2) hLat hLon ≤ (devRadiusKm : EReal)

/-- The in-scope decision of geo_location.py lines 123-135: near home, or —
checked only when not near home (line 129) — near some tracked device. -/
def geoInScope (homeLat homeLon : Option ℝ) (homeRadiusKm : ℝ)
    (devices : List (ℝ × ℝ)) (devRadiusKm : ℝ) (hLat hLon : Option ℝ) : Prop :=
  geoNearHome homeLat homeLon homeRadiusKm hLat hLon ∨
    (¬ geoNearHome homeLat homeLon homeRadiusKm hLat hLon ∧
      geoNearDevice devices devRadiusKm hLat hLon)

end GeoLoc

namespace Sensor

/-- The coordinates a configured device tracker's state reports; either may
be absent. -/
structure TrackerLoc where
  lat : Option ℝ
  lon : Option ℝ

/-- The configuration `native_value` reads (sensor.py lines 141-148): home
coordinates from `hass.config` (either may be None), the home radius, the
monitored trackers' current locations, and the device radius. -/
structure SensorCfg where
  homeLat : Option ℝ
  homeLon : Option ℝ
  homeRadiusKm : ℝ
  trackers : List TrackerLoc
  devRadiusKm : ℝ

/-- Modelled external collaborator `homeassistant.util.location.distance`
as imported at sensor.py line 20: great-circle distance in metres between
two coordinate pairs, `None`-able in its signature. It is modelled as 1000
times the repository's own haversine kilometre formula, which is the great-
circle distance the spec's Distance Utility describes. -/
noncomputable def locDistanceM (lat1 lon1 lat2 lon2 : ℝ) : Option ℝ :=
  some (1000 * Util.havReal lat1 lon1 lat2 lon2)

/-- The home check of sensor.py lines 175-178: requires both home
coordinates present AND `home_radius_km > 0`, then compares the metre
distance divided by 1000 against the radius (inclusive). -/
def nearHome (cfg : SensorCfg) (hLat hLon : ℝ) : Prop :=
  match cfg.homeLat, cfg.homeLon with
  | some a, some o =>
      0 < cfg.homeRadiusKm ∧
      ∃ d, locDistanceM a o hLat hLon = some d ∧ d / 1000 ≤ cfg.homeRadiusKm
  | _, _ => False

/-- The tracker loop of sensor.py lines 180-189: requires
`device_radius_km > 0`, and for some monitored tracker truthy latitude and
longitude attributes (a present value equal to 0.0 is falsy in Python and
is skipped), then the inclusive distance comparison. -/
def nearDevice (cfg : SensorCfg) (hLat hLon : ℝ) : Prop :=
  0 < cfg.devRadiusKm ∧
  ∃ t ∈ cfg.trackers, ∃ a b, t.lat = some a ∧ t.lon = some b ∧
    a ≠ 0 ∧ b ≠ 0 ∧
    ∃ d, locDistanceM a b hLat hLon = some d ∧ d / 1000 ≤ cfg.devRadiusKm

/-- The `is_nearby` decision of sensor.py lines 173-189: near home, or —
checked only when not already nearby (line 180) — near some tracker. -/
def isNearby (cfg : SensorCfg) (hLat hLon : ℝ) : Prop :=
  nearHome cfg hLat hLon ∨
    (¬ nearHome cfg hLat hLon ∧ nearDevice cfg hLat hLon)

/-- One feature as the count loop of `native_value` reads it: its
`properties.mainCategory`, its root `id`, and its point coordinates
(lat, lon), `none` when missing or shorter than 2. -/
structure SHazard where
  mainCategory : Option String
  hid : Option String
  coords : Option (ℝ × ℝ)

/-- An entry of the coordinator's `features` list: either a well-formed
feature, or an entry whose processing raises (e.g. a non-dict), which the
`except` at sensor.py lines 199-201 catches and skips. -/
inductive RawHazard where
  | bad
  | good (h : SHazard)

/-- The shapes of `self.coordinator.data` the sensor distinguishes
(sensor.py lines 132-139): falsy data or data without a `features` key;
a `features` value that is not a list; and a proper feature list. -/
inductive CoordData where
  | noData
  | badFeatures
  | features (l : List RawHazard)

open Classical in
/-- One iteration of the count loop of sensor.py lines 153-201, threading
`nearby_hazard_count` and `counted_hazard_ids`: a raising entry changes
nothing; otherwise the feature is skipped unless its `mainCategory` equals
the sensor's granular type and it has usable coordinates; a nearby feature
is counted once per merge key (`str(hazard.get("id"))`), or unconditionally
when the key is the empty string. -/
noncomputable def countStep (cfg : SensorCfg) (htype : String)
    (acc : ℕ × List String) : RawHazard → ℕ × List String
  | .bad => acc
  | .good h =>
    if h.mainCategory ≠ some htype then acc
    else
      match h.coords with
      | none => acc
      | some c =>
        if isNearby cfg c.1 c.2 then
          let k := Api.pyStr h.hid
          if k ≠ "" then
            (if k ∈ acc.2 then acc else (acc.1 + 1, acc.2 ++ [k]))
          else (acc.1 + 1, acc.2)
        else acc

/-- `NswLiveTrafficNearbyHazardCountSensor.native_value` (sensor.py lines
129-203): 0 when coordinator data is absent or lacks a `features` key
(lines 132-134) or when `features` is not a list (lines 137-139), otherwise
the fold of the count loop; always a natural number, never raising. -/
noncomputable def native_value (cfg : SensorCfg) (htype : String) :
    CoordData → ℕ
  | .noData => 0
  | .badFeatures => 0
  | .features l => (l.foldl (countStep cfg htype) (0, [])).1

end Sensor

namespace Api

/-- Environment in which every endpoint answers HTTP 401, as in the spec
scenario for claim C1. -/
def env401 : String → ApiResponse := fun _ => .status 401

/-- Environment for claim C2: the single category responds with two
distinct id-less records of identical content. -/
def envIdlessSame : String → ApiResponse :=
  fun _ => .success [⟨none, "hazard-A"⟩, ⟨none, "hazard-A"⟩]

/-- Environment showing the C2 failure is not value-deduplication: two
id-less records with different content. -/
def envIdlessDiff : String → ApiResponse :=
  fun _ => .success [⟨none, "hazard-A"⟩, ⟨none, "hazard-B"⟩]

/-- Environment for the C3 witness: two categories, overlapping id x2. -/
def envC3 : String → ApiResponse := fun u =>
  if u = API_ENDPOINT_BASE ++ "/alpine/open" then
    .success [⟨some "x1", "a"⟩, ⟨some "x2", "b"⟩]
  else if u = API_ENDPOINT_BASE ++ "/incident/open" then
    .success [⟨some "x2", "c"⟩, ⟨some "x3", "d"⟩]
  else .netError

end Api

/-- The category loop is the single-pass merge of the concatenated
successful category feature lists. -/
theorem api_fetchLoop_eq (env : String → Api.ApiResponse) :
    ∀ (paths : List String) (acc : List Api.Feature × List String),
      Api.fetchLoop env paths acc =
        (Api.joinedFeatures env paths).foldl Api.mergeStep acc := by
  intro paths
  induction paths with
  | nil => intro acc; simp [Api.fetchLoop, Api.joinedFeatures]
  | cons p rest ih =>
    intro acc
    cases h : Api.tryEndpoints env (Api.endpointsFor p) with
    | none =>
      rw [show Api.fetchLoop env (p :: rest) acc = Api.fetchLoop env rest acc by
        simp [Api.fetchLoop, h]]
      rw [ih]
      simp [Api.joinedFeatures, List.filterMap_cons, h]
    | some fs =>
      rw [show Api.fetchLoop env (p :: rest) acc
          = Api.fetchLoop env rest (fs.foldl Api.mergeStep acc) by
        simp [Api.fetchLoop, h]]
      rw [ih]
      simp [Api.joinedFeatures, List.filterMap_cons, h, List.foldl_append]

/-- The feature component of the merge fold is the accumulated list
followed by the first-occurrence deduplication of the input. -/
theorem api_foldl_mergeStep_fst :
    ∀ (l : List Api.Feature) (acc : List Api.Feature) (seen : List String),
      (l.foldl Api.mergeStep (acc, seen)).1 = acc ++ Api.dedupBy seen l := by
  intro l
  induction l with
  | nil => intro acc seen; simp [Api.dedupBy]
  | cons f rest ih =>
    intro acc seen
    by_cases h1 : Api.idKey f ≠ "" ∧ Api.idKey f ∉ seen
    · rw [List.foldl_cons,
        show Api.mergeStep (acc, seen) f = (acc ++ [f], seen ++ [Api.idKey f]) by
          simp [Api.mergeStep, h1],
        show Api.dedupBy seen (f :: rest)
            = f :: Api.dedupBy (seen ++ [Api.idKey f]) rest by
          simp [Api.dedupBy, h1]]
      rw [ih]
      simp
    · by_cases h2 : Api.idKey f = ""
      · rw [List.foldl_cons,
          show Api.mergeStep (acc, seen) f = (acc ++ [f], seen) by
            simp [Api.mergeStep, h1, h2],
          show Api.dedupBy seen (f :: rest) = f :: Api.dedupBy seen rest by
            simp [Api.dedupBy, h1, h2]]
        rw [ih]
        simp
      · have h3 : Api.idKey f ∈ seen := by
          by_contra hmem
          exact h1 ⟨h2, hmem⟩
        rw [List.foldl_cons,
          show Api.mergeStep (acc, seen) f = (acc, seen) by
            simp [Api.mergeStep, h2, h3],
          show Api.dedupBy seen (f :: rest) = Api.dedupBy seen rest by
            simp [Api.dedupBy, h2, h3]]
        exact ih acc seen

/-- The merged output is a subsequence of the input stream: merge order
follows the input order. -/
theorem api_dedupBy_sublist :
    ∀ (seen : List String) (l : List Api.Feature),
      (Api.dedupBy seen l).Sublist l := by
  intro seen l
  induction l generalizing seen with
  | nil => simp [Api.dedupBy]
  | cons f rest ih =>
    by_cases h1 : Api.idKey f ≠ "" ∧ Api.idKey f ∉ seen
    · rw [show Api.dedupBy seen (f :: rest)
          = f :: Api.dedupBy (seen ++ [Api.idKey f]) rest by simp [Api.dedupBy, h1]]
      exact (ih _).cons₂ f
    · by_cases h2 : Api.idKey f = ""
      · rw [show Api.dedupBy seen (f :: rest) = f :: Api.dedupBy seen rest by
          simp [Api.dedupBy, h1, h2]]
        exact (ih _).cons₂ f
      · have h3 : Api.idKey f ∈ seen := by
          by_contra hmem
          exact h1 ⟨h2, hmem⟩
        rw [show Api.dedupBy seen (f :: rest) = Api.dedupBy seen rest by
          simp [Api.dedupBy, h2, h3]]
        exact (ih _).cons f

/-- For a feature with a present non-empty id, the merge key is that id. -/
theorem api_goodId_key (f : Api.Feature) (hf : Api.goodId f) :
    f.fid = some (Api.idKey f) ∧ Api.idKey f ≠ "" := by
  cases hfid : f.fid with
  | none => exact absurd hfid hf.1
  | some s =>
    have hs : s ≠ "" := fun h => hf.2 (by rw [hfid, h])
    simp [Api.idKey, Api.pyStr, hfid, hs]

/-- Every feature kept by the deduplication has a key outside the initial
seen set (inputs restricted to features with usable ids). -/
theorem api_dedupBy_key_not_seen :
    ∀ (seen : List String) (l : List Api.Feature),
      (∀ f ∈ l, Api.goodId f) →
      ∀ g ∈ Api.dedupBy seen l, Api.idKey g ∉ seen := by
  intro seen l
  induction l generalizing seen with
  | nil => simp [Api.dedupBy]
  | cons f rest ih =>
    intro hg g hgmem
    have hkf := (api_goodId_key f (hg f (by simp))).2
    have hgrest : ∀ x ∈ rest, Api.goodId x := fun x hx => hg x (by simp [hx])
    by_cases hmem : Api.idKey f ∈ seen
    · rw [show Api.dedupBy seen (f :: rest) = Api.dedupBy seen rest by
        simp [Api.dedupBy, hkf, hmem]] at hgmem
      exact ih seen hgrest g hgmem
    · rw [show Api.dedupBy seen (f :: rest)
          = f :: Api.dedupBy (seen ++ [Api.idKey f]) rest by
        simp [Api.dedupBy, hkf, hmem]] at hgmem
      rcases List.mem_cons.mp hgmem with hgf | hgtail
      · rw [hgf]; exact hmem
      · have := ih (seen ++ [Api.idKey f]) hgrest g hgtail
        intro hcon
        exact this (by simp [hcon])

/-- The keys of the deduplicated output are pairwise distinct: each id
appears at most once in the merged result. -/
theorem api_dedupBy_nodup_keys :
    ∀ (seen : List String) (l : List Api.Feature),
      (∀ f ∈ l, Api.goodId f) →
      ((Api.dedupBy seen l).map Api.idKey).Nodup := by
  intro seen l
  induction l generalizing seen with
  | nil => simp [Api.dedupBy]
  | cons f rest ih =>
    intro hg
    have hkf := (api_goodId_key f (hg f (by simp))).2
    have hgrest : ∀ x ∈ rest, Api.goodId x := fun x hx => hg x (by simp [hx])
    by_cases hmem : Api.idKey f ∈ seen
    · rw [show Api.dedupBy seen (f :: rest) = Api.dedupBy seen rest by
        simp [Api.dedupBy, hkf, hmem]]
      exact ih seen hgrest
    · rw [show Api.dedupBy seen (f :: rest)
          = f :: Api.dedupBy (seen ++ [Api.idKey f]) rest by
        simp [Api.dedupBy, hkf, hmem]]
      rw [List.map_cons, List.nodup_cons]
      constructor
      · intro hcon
        rcases List.mem_map.mp hcon with ⟨g, hgmem, hgkey⟩
        have := api_dedupBy_key_not_seen (seen ++ [Api.idKey f]) rest hgrest g hgmem
        exact this (by simp [hgkey])
      · exact ih (seen ++ [Api.idKey f]) hgrest

/-- Every input feature's id either was in the seen set already or is
present among the output keys: no id is lost. -/
theorem api_dedupBy_covers :
    ∀ (seen : List String) (l : List Api.Feature),
      (∀ f ∈ l, Api.goodId f) →
      ∀ f ∈ l, Api.idKey f ∈ seen ∨ Api.idKey f ∈ (Api.dedupBy seen l).map Api.idKey := by
  intro seen l
  induction l generalizing seen with
  | nil => simp
  | cons f rest ih =>
    intro hg x hx
    have hkf := (api_goodId_key f (hg f (by simp))).2
    have hgrest : ∀ y ∈ rest, Api.goodId y := fun y hy => hg y (by simp [hy])
    by_cases hmem : Api.idKey f ∈ seen
    · rw [show Api.dedupBy seen (f :: rest) = Api.dedupBy seen rest by
        simp [Api.dedupBy, hkf, hmem]]
      rcases List.mem_cons.mp hx with hxf | hxrest
      · left; rw [hxf]; exact hmem
      · exact ih seen hgrest x hxrest
    · rw [show Api.dedupBy seen (f :: rest)
          = f :: Api.dedupBy (seen ++ [Api.idKey f]) rest by
        simp [Api.dedupBy, hkf, hmem]]
      rcases List.mem_cons.mp hx with hxf | hxrest
      · right; rw [hxf]; simp
      · rcases ih (seen ++ [Api.idKey f]) hgrest x hxrest with hin | hout
        · rcases List.mem_append.mp hin with h | h
          · left; exact h
          · right; simp at h; rw [h]; simp
        · right; simp [hout]

/-- Deduplication keeps, for each id not already seen, exactly the first
instance in input order: `find?` by id agrees before and after. -/
theorem api_dedupBy_find :
    ∀ (seen : List String) (l : List Api.Feature),
      (∀ f ∈ l, Api.goodId f) →
      ∀ s : String, s ∉ seen →
      (Api.dedupBy seen l).find? (fun g => decide (Api.idKey g = s)) =
        l.find? (fun g => decide (Api.idKey g = s)) := by
  intro seen l
  induction l generalizing seen with
  | nil => simp [Api.dedupBy]
  | cons f rest ih =>
    intro hg s hs
    have hkf := (api_goodId_key f (hg f (by simp))).2
    have hgrest : ∀ y ∈ rest, Api.goodId y := fun y hy => hg y (by simp [hy])
    by_cases hmem : Api.idKey f ∈ seen
    · have hne : Api.idKey f ≠ s := fun h => hs (h ▸ hmem)
      rw [show Api.dedupBy seen (f :: rest) = Api.dedupBy seen rest by
        simp [Api.dedupBy, hkf, hmem]]
      rw [List.find?_cons_of_neg _ (by simp [hne])]
      exact ih seen hgrest s hs
    · rw [show Api.dedupBy seen (f :: rest)
          = f :: Api.dedupBy (seen ++ [Api.idKey f]) rest by
        simp [Api.dedupBy, hkf, hmem]]
      by_cases heq : Api.idKey f = s
      · rw [List.find?_cons_of_pos _ (by simp [heq]),
          List.find?_cons_of_pos _ (by simp [heq])]
      · rw [List.find?_cons_of_neg _ (by simp [heq]),
          List.find?_cons_of_neg _ (by simp [heq])]
        exact ih (seen ++ [Api.idKey f]) hgrest s (by simp [hs, Ne.symm, heq])

/-- `find?` only depends on the predicate's values on the list members. -/
theorem api_find_congr {α : Type} (p q : α → Bool) :
    ∀ (l : List α), (∀ a ∈ l, p a = q a) → l.find? p = l.find? q := by
  intro l
  induction l with
  | nil => simp
  | cons a rest ih =>
    intro h
    have ha := h a (by simp)
    cases hq : q a with
    | true =>
      rw [List.find?_cons_of_pos _ (ha.trans hq), List.find?_cons_of_pos _ hq]
    | false =>
      rw [List.find?_cons_of_neg _ (by simp [ha, hq]),
        List.find?_cons_of_neg _ (by simp [hq])]
      exact ih (fun b hb => h b (by simp [hb]))

/-- C1: the claim states that when every endpoint variant attempted for a
category returns HTTP 401, an AuthError surfaces to the caller, no events
are emitted and the tracked state is unchanged. The code instead logs the
401, abandons the category, and returns a normal empty FeatureCollection:
`async_get_hazards` succeeds, the coordinator reports data rather than an
auth failure, and a subsequent diff pass over the resulting empty snapshot
clears previously tracked hazards (emitting an event and changing state). -/
theorem C1_http401_not_surfaced :
    Api.async_get_hazards Api.env401 "configured-key" ["fire"] = .ok [] ∧
    Api._async_update_data Api.env401 "configured-key" ["fire"] = .data [] ∧
    (GeoLoc.diffPass
        [("A", ⟨none, none, none, [], none, none, none, none, none, none⟩)]
        []).2 = [GeoLoc.Ev.cleared "A"] := by
  refine ⟨rfl, rfl, by decide⟩

/-- C2: the claim states that id-less records are never deduplicated. In
the code `str(feature.get("id"))` turns a missing id into the truthy string
"None", so every id-less record shares the merge key "None": the first one
is appended and all later ones are dropped. Two id-less records with
identical content yield a single merged record, and even two id-less
records with different content collapse to the first. -/
theorem C2_idless_records_are_deduplicated :
    Api.async_get_hazards Api.envIdlessSame "k" ["incident"]
        = .ok [⟨none, "hazard-A"⟩] ∧
    Api.async_get_hazards Api.envIdlessDiff "k" ["incident"]
        = .ok [⟨none, "hazard-A"⟩] := by
  refine ⟨rfl, rfl⟩

/-- C3: for every fetch (with a configured key) whose successfully
retrieved categories contain only features with usable ids, the merged
FeatureCollection contains each id exactly once, keeps the first-seen
instance of each id, and its order is a subsequence of the concatenation of
the successful categories' feature lists in category request order. -/
theorem C3_merge_dedup_first_seen (env : String → Api.ApiResponse)
    (apiKey : String) (paths : List String) (hk : apiKey ≠ "")
    (hg : ∀ f ∈ Api.joinedFeatures env paths, Api.goodId f) :
    ∃ merged,
      Api.async_get_hazards env apiKey paths = .ok merged ∧
      merged.Sublist (Api.joinedFeatures env paths) ∧
      (∀ f ∈ Api.joinedFeatures env paths,
        (merged.filter (fun g => decide (g.fid = f.fid))).length = 1) ∧
      (∀ s : String,
        merged.find? (fun g => decide (g.fid = some s)) =
          (Api.joinedFeatures env paths).find? (fun g => decide (g.fid = some s))) := by
  refine ⟨Api.dedupBy [] (Api.joinedFeatures env paths), ?_, ?_, ?_, ?_⟩
  · unfold Api.async_get_hazards
    rw [if_neg hk, api_fetchLoop_eq env paths ([], []), api_foldl_mergeStep_fst]
    simp
  · exact api_dedupBy_sublist [] _
  · intro f hf
    have hfkey := api_goodId_key f (hg f hf)
    have hDsub := api_dedupBy_sublist [] (Api.joinedFeatures env paths)
    have hDgood : ∀ g ∈ Api.dedupBy [] (Api.joinedFeatures env paths), Api.goodId g :=
      fun g hgm => hg g (hDsub.subset hgm)
    have step1 :
        ((Api.dedupBy [] (Api.joinedFeatures env paths)).filter
            (fun g => decide (g.fid = f.fid))).length
          = (Api.dedupBy [] (Api.joinedFeatures env paths)).countP
            (fun g => decide (g.fid = f.fid)) :=
      (List.countP_eq_length_filter _ _).symm
    have step2 :
        (Api.dedupBy [] (Api.joinedFeatures env paths)).countP
            (fun g => decide (g.fid = f.fid))
          = (Api.dedupBy [] (Api.joinedFeatures env paths)).countP
            (fun g => Api.idKey g == Api.idKey f) := by
      refine List.countP_congr ?_
      intro g hgm
      have hgkey := api_goodId_key g (hDgood g hgm)
      constructor
      · intro h
        simp only [decide_eq_true_eq] at h
        have : some (Api.idKey g) = some (Api.idKey f) := by
          rw [← hgkey.1, ← hfkey.1, h]
        simp at this
        simp [this]
      · intro h
        simp only [beq_iff_eq] at h
        simp only [decide_eq_true_eq]
        rw [hgkey.1, hfkey.1, h]
    have step3 :
        (Api.dedupBy [] (Api.joinedFeatures env paths)).countP
            (fun g => Api.idKey g == Api.idKey f)
          = ((Api.dedupBy [] (Api.joinedFeatures env paths)).map Api.idKey).count
            (Api.idKey f) := by
      rw [List.count, List.countP_map]
      rfl
    have hmem : Api.idKey f
        ∈ (Api.dedupBy [] (Api.joinedFeatures env paths)).map Api.idKey := by
      rcases api_dedupBy_covers [] (Api.joinedFeatures env paths) hg f hf with h | h
      · simp at h
      · exact h
    rw [step1, step2, step3]
    exact List.count_eq_one_of_mem
      (api_dedupBy_nodup_keys [] (Api.joinedFeatures env paths) hg) hmem
  · intro s
    have hDsub := api_dedupBy_sublist [] (Api.joinedFeatures env paths)
    have hDgood : ∀ g ∈ Api.dedupBy [] (Api.joinedFeatures env paths), Api.goodId g :=
      fun g hgm => hg g (hDsub.subset hgm)
    have hcast : ∀ (g : Api.Feature), Api.goodId g →
        (decide (g.fid = some s)) = (decide (Api.idKey g = s)) := by
      intro g hgood
      have hgkey := api_goodId_key g hgood
      by_cases h : Api.idKey g = s
      · have hfid : g.fid = some s := by rw [hgkey.1, h]
        simp [h, hfid]
      · have : g.fid ≠ some s := by
          rw [hgkey.1]
          intro hc
          exact h (by injection hc)
        simp [h, this]
    rw [api_find_congr _ _ _ (fun g hgm => hcast g (hDgood g hgm)),
      api_find_congr _ _ (Api.joinedFeatures env paths) (fun g hgm => hcast g (hg g hgm))]
    exact api_dedupBy_find [] (Api.joinedFeatures env paths) hg s (by simp)

/-- Witness for C3 at a concrete two-category fetch with overlapping id
"x2". -/
theorem C3_merge_dedup_first_seen_witness :
    ("key" : String) ≠ "" ∧
    (∀ f ∈ Api.joinedFeatures Api.envC3 ["alpine", "incident"], Api.goodId f) ∧
    (∃ merged,
      Api.async_get_hazards Api.envC3 "key" ["alpine", "incident"] = .ok merged ∧
      merged.Sublist (Api.joinedFeatures Api.envC3 ["alpine", "incident"]) ∧
      (∀ f ∈ Api.joinedFeatures Api.envC3 ["alpine", "incident"],
        (merged.filter (fun g => decide (g.fid = f.fid))).length = 1) ∧
      (∀ s : String,
        merged.find? (fun g => decide (g.fid = some s)) =
          (Api.joinedFeatures Api.envC3 ["alpine", "incident"]).find?
            (fun g => decide (g.fid = some s)))) :=
  ⟨by decide, by decide,
    C3_merge_dedup_first_seen Api.envC3 "key" ["alpine", "incident"]
      (by decide) (by decide)⟩

/-- The folded diff loop splits into its tracked-dict component (a fold of
dict writes) and its event component (one optional event per in-scope
entry, decided against the pass-start tracked dict). -/
theorem geo_foldl_diffStep (T0 : List GeoLoc.KV) :
    ∀ (S : List GeoLoc.KV) (tr : List GeoLoc.KV) (evs : List GeoLoc.Ev),
      S.foldl (GeoLoc.diffStep T0) (tr, evs)
        = (S.foldl GeoLoc.dictInsert tr, evs ++ S.filterMap (GeoLoc.evOf T0)) := by
  intro S
  induction S with
  | nil => intro tr evs; simp
  | cons kv rest ih =>
    intro tr evs
    rw [List.foldl_cons, List.foldl_cons]
    cases h : GeoLoc.evOf T0 kv with
    | none =>
      rw [show GeoLoc.diffStep T0 (tr, evs) kv = (GeoLoc.dictInsert tr kv, evs) by
        simp [GeoLoc.diffStep, h]]
      rw [ih]
      simp [List.filterMap_cons, h]
    | some e =>
      rw [show GeoLoc.diffStep T0 (tr, evs) kv
          = (GeoLoc.dictInsert tr kv, evs ++ [e]) by simp [GeoLoc.diffStep, h]]
      rw [ih]
      simp [List.filterMap_cons, h]

/-- A dict write leaves the key list unchanged when the key exists and
appends the key otherwise; membership in the keys after a write. -/
theorem geo_keys_dictInsert (l : List GeoLoc.KV) (kv : GeoLoc.KV) (k : String) :
    k ∈ (GeoLoc.dictInsert l kv).map Prod.fst
      ↔ k ∈ l.map Prod.fst ∨ k = kv.1 := by
  by_cases h : l.any (fun e => decide (e.1 = kv.1))
  · have hkeys : (GeoLoc.dictInsert l kv).map Prod.fst = l.map Prod.fst := by
      rw [GeoLoc.dictInsert, if_pos h, List.map_map]
      refine List.map_congr_left ?_
      intro e _
      by_cases he : e.1 = kv.1 <;> simp [he]
    rw [hkeys]
    constructor
    · exact Or.inl
    · rintro (hm | hm)
      · exact hm
      · rcases List.any_eq_true.mp h with ⟨e, hel, hek⟩
        simp at hek
        rw [hm, ← hek]
        exact List.mem_map_of_mem Prod.fst hel
  · rw [GeoLoc.dictInsert, if_neg h]
    simp

/-- Keys after folding dict writes: the original keys plus the written
keys. -/
theorem geo_keys_foldl_dictInsert :
    ∀ (S : List GeoLoc.KV) (T : List GeoLoc.KV) (k : String),
      k ∈ (S.foldl GeoLoc.dictInsert T).map Prod.fst
        ↔ k ∈ T.map Prod.fst ∨ k ∈ S.map Prod.fst := by
  intro S
  induction S with
  | nil => intro T k; simp
  | cons kv rest ih =>
    intro T k
    rw [List.foldl_cons, ih, geo_keys_dictInsert]
    simp only [List.map_cons, List.mem_cons]
    tauto

/-- Sequential dict pops are a filter by key. -/
theorem geo_foldl_dictRemove_eq_filter :
    ∀ (ks : List String) (l : List GeoLoc.KV),
      ks.foldl GeoLoc.dictRemove l = l.filter (fun e => decide (e.1 ∉ ks)) := by
  intro ks
  induction ks with
  | nil => intro l; simp
  | cons k rest ih =>
    intro l
    rw [List.foldl_cons, show GeoLoc.dictRemove l k
        = l.filter (fun e => decide (e.1 ≠ k)) from rfl, ih, List.filter_filter]
    refine List.filter_congr ?_
    intro e _
    by_cases h1 : e.1 = k
    · simp [h1]
    · by_cases h2 : e.1 ∈ rest <;> simp [h1, h2]

/-- Dict lookup misses exactly when the key is absent. -/
theorem geo_alookup_eq_none (l : List GeoLoc.KV) (k : String) :
    GeoLoc.alookup l k = none ↔ k ∉ l.map Prod.fst := by
  rw [GeoLoc.alookup, Option.map_eq_none', List.find?_eq_none]
  constructor
  · intro h hmem
    rcases List.mem_map.mp hmem with ⟨e, hel, hek⟩
    exact absurd (by simp [hek]) (h e hel)
  · intro h e hel
    simp only [decide_eq_true_eq]
    intro hek
    exact h (hek ▸ List.mem_map_of_mem Prod.fst hel)

/-- The tracked dict returned by one pass: all in-scope data written over
the previous dict, then the cleared keys filtered out. -/
theorem geo_diffPass_fst (T S : List GeoLoc.KV) :
    (GeoLoc.diffPass T S).1
      = ((GeoLoc.mkScope S).foldl GeoLoc.dictInsert T).filter
          (fun e => decide (e.1 ∉ (T.map Prod.fst).filter
            (fun j => (GeoLoc.alookup (GeoLoc.mkScope S) j).isNone))) := by
  simp only [GeoLoc.diffPass, geo_foldl_diffStep, geo_foldl_dictRemove_eq_filter]

/-- The events of one pass: the Appeared/Updated stream decided against the
pass-start tracked dict, then the Cleared events. -/
theorem geo_diffPass_snd (T S : List GeoLoc.KV) :
    (GeoLoc.diffPass T S).2
      = (GeoLoc.mkScope S).filterMap (GeoLoc.evOf T)
        ++ ((T.map Prod.fst).filter
          (fun j => (GeoLoc.alookup (GeoLoc.mkScope S) j).isNone)).map GeoLoc.Ev.cleared := by
  simp only [GeoLoc.diffPass, geo_foldl_diffStep]
  simp

/-- Key membership in a key-predicate filter of a dict. -/
theorem geo_keys_filter (l : List GeoLoc.KV) (p : String → Bool) (k : String) :
    k ∈ (l.filter (fun e => p e.1)).map Prod.fst
      ↔ k ∈ l.map Prod.fst ∧ p k = true := by
  simp only [List.mem_map, List.mem_filter]
  constructor
  · rintro ⟨e, ⟨hel, hpe⟩, hek⟩
    exact ⟨⟨e, hel, hek⟩, hek ▸ hpe⟩
  · rintro ⟨⟨e, hel, hek⟩, hpk⟩
    exact ⟨e, ⟨hel, hek ▸ hpk⟩, hek⟩

/-- Membership in the cleared-key list of a pass: tracked before, not in
scope now. -/
theorem geo_mem_clearedKeys (T S : List GeoLoc.KV) (k : String) :
    k ∈ (T.map Prod.fst).filter
        (fun j => (GeoLoc.alookup (GeoLoc.mkScope S) j).isNone)
      ↔ k ∈ T.map Prod.fst ∧ k ∉ (GeoLoc.mkScope S).map Prod.fst := by
  rw [List.mem_filter, Option.isNone_iff_eq_none, geo_alookup_eq_none]

/-- After one pass the tracked keys are exactly the in-scope keys. -/
theorem geo_diffPass_keys (T S : List GeoLoc.KV) (k : String) :
    k ∈ (GeoLoc.diffPass T S).1.map Prod.fst
      ↔ k ∈ (GeoLoc.mkScope S).map Prod.fst := by
  rw [geo_diffPass_fst,
    geo_keys_filter ((GeoLoc.mkScope S).foldl GeoLoc.dictInsert T)
      (fun j => decide (j ∉ (T.map Prod.fst).filter
        (fun i => (GeoLoc.alookup (GeoLoc.mkScope S) i).isNone))) k,
    geo_keys_foldl_dictInsert]
  rw [show (decide (k ∉ (T.map Prod.fst).filter
      (fun j => (GeoLoc.alookup (GeoLoc.mkScope S) j).isNone)) = true)
      ↔ k ∉ (T.map Prod.fst).filter
        (fun j => (GeoLoc.alookup (GeoLoc.mkScope S) j).isNone) from by simp]
  rw [geo_mem_clearedKeys]
  tauto

/-- A dict write either leaves the key list unchanged (key present) or
appends the new key (key absent). -/
theorem geo_keys_dictInsert_cases (l : List GeoLoc.KV) (kv : GeoLoc.KV) :
    (GeoLoc.dictInsert l kv).map Prod.fst = l.map Prod.fst ∨
    ((GeoLoc.dictInsert l kv).map Prod.fst = l.map Prod.fst ++ [kv.1] ∧
      kv.1 ∉ l.map Prod.fst) := by
  by_cases h : l.any (fun e => decide (e.1 = kv.1))
  · left
    rw [GeoLoc.dictInsert, if_pos h, List.map_map]
    refine List.map_congr_left ?_
    intro e _
    by_cases he : e.1 = kv.1 <;> simp [he]
  · right
    refine ⟨by rw [GeoLoc.dictInsert, if_neg h]; simp, ?_⟩
    intro hc
    rcases List.mem_map.mp hc with ⟨e, hel, hek⟩
    exact h (List.any_eq_true.mpr ⟨e, hel, by simp [hek]⟩)

/-- Dict writes preserve distinctness of keys. -/
theorem geo_nodup_keys_dictInsert (l : List GeoLoc.KV) (kv : GeoLoc.KV)
    (h : (l.map Prod.fst).Nodup) :
    ((GeoLoc.dictInsert l kv).map Prod.fst).Nodup := by
  rcases geo_keys_dictInsert_cases l kv with hc | ⟨hc, hnm⟩
  · rw [hc]; exact h
  · rw [hc]
    simp [List.nodup_append, h, hnm]

/-- Folded dict writes preserve distinctness of keys. -/
theorem geo_nodup_keys_foldl_dictInsert :
    ∀ (S T : List GeoLoc.KV), (T.map Prod.fst).Nodup →
      ((S.foldl GeoLoc.dictInsert T).map Prod.fst).Nodup := by
  intro S
  induction S with
  | nil => intro T h; exact h
  | cons kv rest ih => intro T h; exact ih _ (geo_nodup_keys_dictInsert T kv h)

/-- A scope dict has distinct keys. -/
theorem geo_mkScope_nodup_keys (l : List GeoLoc.KV) :
    ((GeoLoc.mkScope l).map Prod.fst).Nodup :=
  geo_nodup_keys_foldl_dictInsert l [] (by simp)

/-- A diff pass preserves distinctness of tracked keys. -/
theorem geo_diffPass_nodup_keys (T S : List GeoLoc.KV)
    (h : (T.map Prod.fst).Nodup) :
    ((GeoLoc.diffPass T S).1.map Prod.fst).Nodup := by
  rw [geo_diffPass_fst]
  exact ((List.filter_sublist _).map Prod.fst).nodup
    (geo_nodup_keys_foldl_dictInsert (GeoLoc.mkScope S) T h)

/-- Lookup at the head key of a dict. -/
theorem geo_alookup_cons_self (e : GeoLoc.KV) (l : List GeoLoc.KV) (k : String)
    (h : e.1 = k) : GeoLoc.alookup (e :: l) k = some e.2 := by
  rw [GeoLoc.alookup, List.find?_cons_of_pos _ (by simp [h])]
  rfl

/-- Lookup skips a head entry with a different key. -/
theorem geo_alookup_cons_ne (e : GeoLoc.KV) (l : List GeoLoc.KV) (k : String)
    (h : ¬ e.1 = k) : GeoLoc.alookup (e :: l) k = GeoLoc.alookup l k := by
  rw [GeoLoc.alookup, List.find?_cons_of_neg _ (by simp [h])]
  rfl

/-- Replacing the value stored under one key does not change lookups at
other keys. -/
theorem geo_alookup_map_replace_ne (kv : GeoLoc.KV) (k : String)
    (hk : k ≠ kv.1) :
    ∀ l : List GeoLoc.KV,
      GeoLoc.alookup (l.map (fun e => if e.1 = kv.1 then (e.1, kv.2) else e)) k
        = GeoLoc.alookup l k := by
  intro l
  induction l with
  | nil => simp [GeoLoc.alookup]
  | cons e rest ih =>
    rw [List.map_cons]
    by_cases hek : e.1 = k
    · have heK : ¬ e.1 = kv.1 := fun h => hk (hek ▸ h)
      rw [if_neg heK, geo_alookup_cons_self e _ k hek,
        geo_alookup_cons_self e rest k hek]
    · by_cases heK : e.1 = kv.1
      · rw [if_pos heK,
          geo_alookup_cons_ne (e.1, kv.2) _ k hek,
          geo_alookup_cons_ne e rest k hek]
        exact ih
      · rw [if_neg heK, geo_alookup_cons_ne e _ k hek,
          geo_alookup_cons_ne e rest k hek]
        exact ih

/-- Writing a present key stores its new value (lookup returns it). -/
theorem geo_alookup_map_replace_self (kv : GeoLoc.KV) :
    ∀ l : List GeoLoc.KV, l.any (fun e => decide (e.1 = kv.1)) →
      GeoLoc.alookup (l.map (fun e => if e.1 = kv.1 then (e.1, kv.2) else e)) kv.1
        = some kv.2 := by
  intro l
  induction l with
  | nil => intro h; simp at h
  | cons e rest ih =>
    intro h
    rw [List.map_cons]
    by_cases he : e.1 = kv.1
    · rw [if_pos he]
      exact geo_alookup_cons_self (e.1, kv.2) _ kv.1 he
    · rw [if_neg he, geo_alookup_cons_ne e _ kv.1 he]
      apply ih
      rcases List.any_eq_true.mp h with ⟨x, hx, hxk⟩
      rcases List.mem_cons.mp hx with rfl | hxr
      · simp at hxk; exact absurd hxk he
      · exact List.any_eq_true.mpr ⟨x, hxr, hxk⟩

/-- Appending a fresh entry: lookup at its key finds it when the key is
absent from the prefix. -/
theorem geo_alookup_append_single_self (kv : GeoLoc.KV) :
    ∀ l : List GeoLoc.KV, ¬ l.any (fun e => decide (e.1 = kv.1)) →
      GeoLoc.alookup (l ++ [kv]) kv.1 = some kv.2 := by
  intro l
  induction l with
  | nil => intro _; exact geo_alookup_cons_self kv [] kv.1 rfl
  | cons e rest ih =>
    intro h
    have he : ¬ e.1 = kv.1 := by
      intro hc
      exact h (List.any_eq_true.mpr ⟨e, by simp, by simp [hc]⟩)
    rw [List.cons_append, geo_alookup_cons_ne e _ kv.1 he]
    apply ih
    intro hc
    rcases List.any_eq_true.mp hc with ⟨x, hx, hxk⟩
    exact h (List.any_eq_true.mpr ⟨x, by simp [hx], hxk⟩)

/-- Appending an entry with a different key does not change a lookup. -/
theorem geo_alookup_append_single_ne (kv : GeoLoc.KV) (k : String)
    (hk : k ≠ kv.1) :
    ∀ l : List GeoLoc.KV, GeoLoc.alookup (l ++ [kv]) k = GeoLoc.alookup l k := by
  intro l
  induction l with
  | nil =>
    rw [List.nil_append, geo_alookup_cons_ne kv [] k (fun h => hk h.symm)]
  | cons e rest ih =>
    by_cases he : e.1 = k
    · rw [List.cons_append, geo_alookup_cons_self e _ k he,
        geo_alookup_cons_self e rest k he]
    · rw [List.cons_append, geo_alookup_cons_ne e _ k he,
        geo_alookup_cons_ne e rest k he]
      exact ih

/-- A dict write stores the written value under the written key. -/
theorem geo_alookup_dictInsert_self (l : List GeoLoc.KV) (kv : GeoLoc.KV) :
    GeoLoc.alookup (GeoLoc.dictInsert l kv) kv.1 = some kv.2 := by
  by_cases h : l.any (fun e => decide (e.1 = kv.1))
  · rw [GeoLoc.dictInsert, if_pos h]
    exact geo_alookup_map_replace_self kv l h
  · rw [GeoLoc.dictInsert, if_neg h]
    exact geo_alookup_append_single_self kv l h

/-- A dict write does not change lookups at other keys. -/
theorem geo_alookup_dictInsert_ne (l : List GeoLoc.KV) (kv : GeoLoc.KV)
    (k : String) (hk : k ≠ kv.1) :
    GeoLoc.alookup (GeoLoc.dictInsert l kv) k = GeoLoc.alookup l k := by
  by_cases h : l.any (fun e => decide (e.1 = kv.1))
  · rw [GeoLoc.dictInsert, if_pos h]
    exact geo_alookup_map_replace_ne kv k hk l
  · rw [GeoLoc.dictInsert, if_neg h]
    exact geo_alookup_append_single_ne kv k hk l

/-- Folding dict writes whose keys avoid `k` preserves the lookup at `k`. -/
theorem geo_alookup_foldl_dictInsert_not_mem :
    ∀ (S T : List GeoLoc.KV) (k : String), k ∉ S.map Prod.fst →
      GeoLoc.alookup (S.foldl GeoLoc.dictInsert T) k = GeoLoc.alookup T k := by
  intro S
  induction S with
  | nil => intro T k _; rfl
  | cons kv rest ih =>
    intro T k h
    simp only [List.map_cons, List.mem_cons, not_or] at h
    rw [List.foldl_cons, ih _ k h.2]
    exact geo_alookup_dictInsert_ne T kv k h.1

/-- Folding the writes of a dict with distinct keys over any base dict
reproduces that dict's own lookups at its keys. -/
theorem geo_alookup_foldl_dictInsert_mem :
    ∀ (S T : List GeoLoc.KV) (k : String), (S.map Prod.fst).Nodup →
      k ∈ S.map Prod.fst →
      GeoLoc.alookup (S.foldl GeoLoc.dictInsert T) k = GeoLoc.alookup S k := by
  intro S
  induction S with
  | nil => intro T k _ h; simp at h
  | cons kv rest ih =>
    intro T k hnd hmem
    rw [List.map_cons] at hnd hmem
    have hnd' := List.nodup_cons.mp hnd
    rw [List.foldl_cons]
    by_cases hk : k = kv.1
    · have hkr : k ∉ rest.map Prod.fst := hk ▸ hnd'.1
      rw [geo_alookup_foldl_dictInsert_not_mem rest _ k hkr,
        geo_alookup_cons_self kv rest k hk.symm, hk,
        geo_alookup_dictInsert_self]
    · have hmr : k ∈ rest.map Prod.fst := by
        rcases List.mem_cons.mp hmem with h | h
        · exact absurd h hk
        · exact h
      rw [ih (GeoLoc.dictInsert T kv) k hnd'.2 hmr,
        geo_alookup_cons_ne kv rest k (fun h => hk h.symm)]

/-- In a dict with distinct keys, lookup at a member's key returns its
value. -/
theorem geo_alookup_mem_nodup :
    ∀ (l : List GeoLoc.KV), (l.map Prod.fst).Nodup → ∀ kv ∈ l,
      GeoLoc.alookup l kv.1 = some kv.2 := by
  intro l
  induction l with
  | nil => intro _ kv h; simp at h
  | cons e rest ih =>
    intro hnd kv hkv
    rw [List.map_cons] at hnd
    have hnd' := List.nodup_cons.mp hnd
    rcases List.mem_cons.mp hkv with rfl | hr
    · exact geo_alookup_cons_self kv rest kv.1 rfl
    · by_cases he : e.1 = kv.1
      · exact absurd (he ▸ List.mem_map_of_mem Prod.fst hr) hnd'.1
      · rw [geo_alookup_cons_ne e rest kv.1 he]
        exact ih hnd'.2 kv hr

/-- A key-predicate filter keeping key `k` preserves the lookup at `k`. -/
theorem geo_alookup_filter_key (p : String → Bool) (k : String)
    (hp : p k = true) :
    ∀ l : List GeoLoc.KV,
      GeoLoc.alookup (l.filter (fun e => p e.1)) k = GeoLoc.alookup l k := by
  intro l
  induction l with
  | nil => simp
  | cons e rest ih =>
    rw [List.filter_cons]
    by_cases hek : e.1 = k
    · rw [if_pos (by rw [hek]; exact hp), geo_alookup_cons_self e _ k hek,
        geo_alookup_cons_self e rest k hek]
    · by_cases hpe : p e.1 = true
      · rw [if_pos hpe, geo_alookup_cons_ne e _ k hek,
          geo_alookup_cons_ne e rest k hek]
        exact ih
      · rw [if_neg hpe, geo_alookup_cons_ne e rest k hek]
        exact ih

/-- Appeared-id extraction distributes over event concatenation. -/
theorem geo_appearedIds_append (a b : List GeoLoc.Ev) :
    GeoLoc.appearedIds (a ++ b)
      = GeoLoc.appearedIds a ++ GeoLoc.appearedIds b := by
  simp [GeoLoc.appearedIds]

/-- Cleared-id extraction distributes over event concatenation. -/
theorem geo_clearedIds_append (a b : List GeoLoc.Ev) :
    GeoLoc.clearedIds (a ++ b)
      = GeoLoc.clearedIds a ++ GeoLoc.clearedIds b := by
  simp [GeoLoc.clearedIds]

/-- The Appeared ids of the in-scope walk: exactly the in-scope keys that
miss the pass-start tracked dict. -/
theorem geo_appearedIds_evList (T : List GeoLoc.KV) :
    ∀ S' : List GeoLoc.KV,
      GeoLoc.appearedIds (S'.filterMap (GeoLoc.evOf T))
        = (S'.map Prod.fst).filter (fun j => (GeoLoc.alookup T j).isNone) := by
  intro S'
  induction S' with
  | nil => simp [GeoLoc.appearedIds]
  | cons kv rest ih =>
    cases hl : GeoLoc.alookup T kv.1 with
    | none =>
      have hev : GeoLoc.evOf T kv = some (.appeared kv.1) := by
        simp [GeoLoc.evOf, hl]
      rw [List.filterMap_cons, hev, List.map_cons, List.filter_cons]
      rw [show GeoLoc.appearedIds (GeoLoc.Ev.appeared kv.1
          :: rest.filterMap (GeoLoc.evOf T))
          = kv.1 :: GeoLoc.appearedIds (rest.filterMap (GeoLoc.evOf T)) from by
        simp [GeoLoc.appearedIds]]
      rw [ih, if_pos (by simp [hl])]
    | some old =>
      have hno : ((GeoLoc.alookup T kv.1).isNone = true) = False := by
        simp [hl]
      by_cases heq : old = kv.2
      · have hev : GeoLoc.evOf T kv = none := by simp [GeoLoc.evOf, hl, heq]
        rw [List.filterMap_cons, hev, List.map_cons, List.filter_cons,
          if_neg (by simp [hl]), ih]
      · have hev : GeoLoc.evOf T kv = some (.updated kv.1) := by
          simp [GeoLoc.evOf, hl, heq]
        rw [List.filterMap_cons, hev, List.map_cons, List.filter_cons,
          if_neg (by simp [hl])]
        rw [show GeoLoc.appearedIds (GeoLoc.Ev.updated kv.1
            :: rest.filterMap (GeoLoc.evOf T))
            = GeoLoc.appearedIds (rest.filterMap (GeoLoc.evOf T)) from by
          simp [GeoLoc.appearedIds]]
        exact ih

/-- The in-scope walk never fires Cleared. -/
theorem geo_clearedIds_evList (T : List GeoLoc.KV) :
    ∀ S' : List GeoLoc.KV,
      GeoLoc.clearedIds (S'.filterMap (GeoLoc.evOf T)) = [] := by
  intro S'
  induction S' with
  | nil => simp [GeoLoc.clearedIds]
  | cons kv rest ih =>
    rw [List.filterMap_cons]
    cases hl : GeoLoc.alookup T kv.1 with
    | none =>
      have hev : GeoLoc.evOf T kv = some (.appeared kv.1) := by
        simp [GeoLoc.evOf, hl]
      rw [hev]
      simpa [GeoLoc.clearedIds] using ih
    | some old =>
      by_cases heq : old = kv.2
      · have hev : GeoLoc.evOf T kv = none := by simp [GeoLoc.evOf, hl, heq]
        rw [hev]
        exact ih
      · have hev : GeoLoc.evOf T kv = some (.updated kv.1) := by
          simp [GeoLoc.evOf, hl, heq]
        rw [hev]
        simpa [GeoLoc.clearedIds] using ih

/-- The cleared phase fires no Appeared events. -/
theorem geo_appearedIds_map_cleared (ks : List String) :
    GeoLoc.appearedIds (ks.map GeoLoc.Ev.cleared) = [] := by
  induction ks with
  | nil => simp [GeoLoc.appearedIds]
  | cons k rest _ => simp [GeoLoc.appearedIds]

/-- The cleared phase fires exactly one Cleared event per cleared key. -/
theorem geo_clearedIds_map_cleared (ks : List String) :
    GeoLoc.clearedIds (ks.map GeoLoc.Ev.cleared) = ks := by
  induction ks with
  | nil => simp [GeoLoc.clearedIds]
  | cons k rest ih => simpa [GeoLoc.clearedIds] using ih

/-- Occurrence count of a key in a filter of a distinct key list. -/
theorem geo_count_filter_nodup (l : List String) (p : String → Bool)
    (k : String) (h : l.Nodup) :
    (l.filter p).count k = if k ∈ l ∧ p k = true then 1 else 0 := by
  by_cases hm : k ∈ l ∧ p k = true
  · rw [if_pos hm]
    exact List.count_eq_one_of_mem (h.filter p) (List.mem_filter.mpr ⟨hm.1, hm.2⟩)
  · rw [if_neg hm]
    refine List.count_eq_zero_of_not_mem ?_
    intro hc
    rcases List.mem_filter.mp hc with ⟨h1, h2⟩
    exact hm ⟨h1, h2⟩

/-- One pass fires Appeared for `k` exactly when `k` entered scope. -/
theorem geo_pass_appeared_count (T S : List GeoLoc.KV) (k : String) :
    (GeoLoc.appearedIds (GeoLoc.diffPass T S).2).count k
      = if k ∈ (GeoLoc.mkScope S).map Prod.fst ∧ k ∉ T.map Prod.fst
        then 1 else 0 := by
  rw [geo_diffPass_snd, geo_appearedIds_append, geo_appearedIds_evList,
    geo_appearedIds_map_cleared, List.append_nil]
  rw [geo_count_filter_nodup _ _ _ (geo_mkScope_nodup_keys S)]
  exact if_congr (by rw [Option.isNone_iff_eq_none, geo_alookup_eq_none]) rfl rfl

/-- One pass fires Cleared for `k` exactly when `k` left scope (tracked
keys distinct). -/
theorem geo_pass_cleared_count (T S : List GeoLoc.KV) (k : String)
    (hT : (T.map Prod.fst).Nodup) :
    (GeoLoc.clearedIds (GeoLoc.diffPass T S).2).count k
      = if k ∈ T.map Prod.fst ∧ k ∉ (GeoLoc.mkScope S).map Prod.fst
        then 1 else 0 := by
  rw [geo_diffPass_snd, geo_clearedIds_append, geo_clearedIds_evList,
    geo_clearedIds_map_cleared, List.nil_append]
  rw [geo_count_filter_nodup _ _ _ hT]
  exact if_congr (by rw [Option.isNone_iff_eq_none, geo_alookup_eq_none]) rfl rfl

/-- The tracked dict after a run decomposes at a sequence split. -/
theorem geo_runPasses_fst_append :
    ∀ (l1 l2 : List (List GeoLoc.KV)) (T : List GeoLoc.KV),
      (GeoLoc.runPasses T (l1 ++ l2)).1
        = (GeoLoc.runPasses (GeoLoc.runPasses T l1).1 l2).1 := by
  intro l1
  induction l1 with
  | nil => intro l2 T; rfl
  | cons s rest ih =>
    intro l2 T
    rw [List.cons_append,
      show GeoLoc.runPasses T (s :: (rest ++ l2))
        = ((GeoLoc.runPasses (GeoLoc.diffPass T s).1 (rest ++ l2)).1,
           (GeoLoc.diffPass T s).2
             ++ (GeoLoc.runPasses (GeoLoc.diffPass T s).1 (rest ++ l2)).2)
        from rfl,
      show GeoLoc.runPasses T (s :: rest)
        = ((GeoLoc.runPasses (GeoLoc.diffPass T s).1 rest).1,
           (GeoLoc.diffPass T s).2
             ++ (GeoLoc.runPasses (GeoLoc.diffPass T s).1 rest).2)
        from rfl]
    exact ih l2 (GeoLoc.diffPass T s).1

/-- Telescoped event counting over a run: per id, Appeared events minus
Cleared events equals final membership minus initial membership. -/
theorem geo_runPasses_count :
    ∀ (seq : List (List GeoLoc.KV)) (T : List GeoLoc.KV) (k : String),
      (T.map Prod.fst).Nodup →
      ((GeoLoc.appearedIds (GeoLoc.runPasses T seq).2).count k : ℤ)
          - (GeoLoc.clearedIds (GeoLoc.runPasses T seq).2).count k
        = (if k ∈ (GeoLoc.runPasses T seq).1.map Prod.fst then 1 else 0)
          - (if k ∈ T.map Prod.fst then 1 else 0) := by
  intro seq
  induction seq with
  | nil =>
    intro T k _
    simp [GeoLoc.runPasses, GeoLoc.appearedIds, GeoLoc.clearedIds]
  | cons s rest ih =>
    intro T k hT
    rw [show GeoLoc.runPasses T (s :: rest)
        = ((GeoLoc.runPasses (GeoLoc.diffPass T s).1 rest).1,
           (GeoLoc.diffPass T s).2
             ++ (GeoLoc.runPasses (GeoLoc.diffPass T s).1 rest).2)
        from rfl]
    rw [geo_appearedIds_append, geo_clearedIds_append,
      List.count_append, List.count_append]
    push_cast
    have h3 := ih (GeoLoc.diffPass T s).1 k (geo_diffPass_nodup_keys T s hT)
    have hkeys := geo_diffPass_keys T s k
    have hind : (if k ∈ (GeoLoc.diffPass T s).1.map Prod.fst then (1 : ℤ) else 0)
        = if k ∈ (GeoLoc.mkScope s).map Prod.fst then 1 else 0 :=
      if_congr hkeys rfl rfl
    have h1 := geo_pass_appeared_count T s k
    have h2 := geo_pass_cleared_count T s k hT
    rw [h1, h2]
    push_cast
    have hpass :
        ((if k ∈ (GeoLoc.mkScope s).map Prod.fst ∧ k ∉ T.map Prod.fst
          then (1:ℤ) else 0))
          - (if k ∈ T.map Prod.fst ∧ k ∉ (GeoLoc.mkScope s).map Prod.fst
            then (1:ℤ) else 0)
        = (if k ∈ (GeoLoc.mkScope s).map Prod.fst then (1:ℤ) else 0)
          - (if k ∈ T.map Prod.fst then (1:ℤ) else 0) := by
      by_cases hS : k ∈ (GeoLoc.mkScope s).map Prod.fst <;>
        by_cases hT2 : k ∈ T.map Prod.fst <;> simp [hS, hT2]
    linarith [h3, hpass, hind]

/-- C4 counterexample: for the snapshot sequence {A}, {}, {A} starting from
an empty tracked set, id "A" is emitted both as Appeared (twice) and as
Cleared (once), so the set of ids ever Appeared minus the set of ids ever
Cleared is empty, while "A" is in the tracked set after the last pass: the
set-difference reading of diff completeness fails for reappearing ids. -/
theorem C4_counterexample_reappearing_id :
    ¬ ((("A" ∈ GeoLoc.appearedIds
          (GeoLoc.runPasses []
            [[("A", GeoLoc.sig0)], [], [("A", GeoLoc.sig0)]]).2) ∧
        ("A" ∉ GeoLoc.clearedIds
          (GeoLoc.runPasses []
            [[("A", GeoLoc.sig0)], [], [("A", GeoLoc.sig0)]]).2))
      ↔ "A" ∈ (GeoLoc.runPasses []
          [[("A", GeoLoc.sig0)], [], [("A", GeoLoc.sig0)]]).1.map Prod.fst) := by
  decide

/-- C4 amended: after every completed diff pass the tracked keys are
exactly the in-scope ids of that pass, and, counting multiplicities, the
number of Appeared events for an id minus the number of Cleared events for
it over a whole run from an empty tracked set is 1 when the id is tracked
at the end and 0 otherwise. (The original set-difference phrasing fails
only when an id reappears after clearing.) -/
theorem C4_tracked_eq_scope_and_event_counting
    (seq : List (List GeoLoc.KV)) (S : List GeoLoc.KV) (k : String) :
    (k ∈ (GeoLoc.runPasses [] (seq ++ [S])).1.map Prod.fst
        ↔ k ∈ (GeoLoc.mkScope S).map Prod.fst) ∧
    ((GeoLoc.appearedIds (GeoLoc.runPasses [] (seq ++ [S])).2).count k : ℤ)
        - (GeoLoc.clearedIds (GeoLoc.runPasses [] (seq ++ [S])).2).count k
      = (if k ∈ (GeoLoc.runPasses [] (seq ++ [S])).1.map Prod.fst
         then 1 else 0) := by
  constructor
  · rw [geo_runPasses_fst_append seq [S] [],
      show (GeoLoc.runPasses (GeoLoc.runPasses [] seq).1 [S]).1
        = (GeoLoc.diffPass (GeoLoc.runPasses [] seq).1 S).1 from rfl]
    exact geo_diffPass_keys _ S k
  · have h := geo_runPasses_count (seq ++ [S]) [] k (by simp)
    simpa using h

/-- An event produced for an in-scope entry carries that entry's id. -/
theorem geo_evOf_evId (T : List GeoLoc.KV) (kv : GeoLoc.KV)
    (e : GeoLoc.Ev) (h : GeoLoc.evOf T kv = some e) : e.evId = kv.1 := by
  unfold GeoLoc.evOf at h
  cases hl : GeoLoc.alookup T kv.1 with
  | none => rw [hl] at h; injection h with h; rw [← h]; rfl
  | some old =>
    rw [hl] at h
    dsimp only at h
    by_cases heq : old = kv.2
    · rw [if_pos heq] at h; exact absurd h (by simp)
    · rw [if_neg heq] at h; injection h with h; rw [← h]; rfl

/-- Events of the in-scope walk carrying a given id are no more numerous
than occurrences of that id among the in-scope keys. -/
theorem geo_evList_filter_length (T : List GeoLoc.KV) :
    ∀ (S' : List GeoLoc.KV) (k : String),
      ((S'.filterMap (GeoLoc.evOf T)).filter
          (fun e => decide (e.evId = k))).length
        ≤ ((S'.map Prod.fst).filter (fun j => decide (j = k))).length := by
  intro S'
  induction S' with
  | nil => simp
  | cons kv rest ih =>
    intro k
    rw [List.filterMap_cons, List.map_cons, List.filter_cons]
    cases h : GeoLoc.evOf T kv with
    | none =>
      by_cases hk : kv.1 = k
      · rw [if_pos (by simp [hk])]
        calc ((rest.filterMap (GeoLoc.evOf T)).filter
              (fun e => decide (e.evId = k))).length
            ≤ ((rest.map Prod.fst).filter (fun j => decide (j = k))).length :=
              ih k
          _ ≤ _ := by simp
      · rw [if_neg (by simp [hk])]
        exact ih k
    | some e =>
      have hid : e.evId = kv.1 := geo_evOf_evId T kv e h
      rw [List.filter_cons]
      by_cases hk : kv.1 = k
      · rw [if_pos (by simp [hid, hk]), if_pos (by simp [hk])]
        simpa using ih k
      · rw [if_neg (by simp [hid, hk]), if_neg (by simp [hk])]
        exact ih k

/-- A distinct list contains at most one occurrence of any value. -/
theorem geo_filter_eq_length_nodup :
    ∀ (l : List String) (k : String), l.Nodup →
      (l.filter (fun j => decide (j = k))).length ≤ 1 := by
  intro l
  induction l with
  | nil => simp
  | cons a rest ih =>
    intro k h
    have h' := List.nodup_cons.mp h
    rw [List.filter_cons]
    by_cases ha : a = k
    · rw [if_pos (by simp [ha])]
      have h0 : rest.filter (fun j => decide (j = k)) = [] := by
        refine List.filter_eq_nil_iff.mpr ?_
        intro b hb
        have hbk : b ≠ k := fun hbk => h'.1 (by rw [ha, ← hbk]; exact hb)
        simp [hbk]
      simp [h0]
    · rw [if_neg (by simp [ha])]
      exact ih k h'.2

/-- C5: within a single diff pass every hazard id receives at most one
transition event: no id appears in more than one of Appeared, Updated,
Cleared, and no id receives two events of the same kind. -/
theorem C5_at_most_one_event_per_id (T S : List GeoLoc.KV) (k : String)
    (hT : (T.map Prod.fst).Nodup) :
    ((GeoLoc.diffPass T S).2.filter (fun e => decide (e.evId = k))).length
      ≤ 1 := by
  rw [geo_diffPass_snd, List.filter_append, List.length_append]
  by_cases hS : k ∈ (GeoLoc.mkScope S).map Prod.fst
  · have hcl : ((((T.map Prod.fst).filter
        (fun j => (GeoLoc.alookup (GeoLoc.mkScope S) j).isNone)).map
          GeoLoc.Ev.cleared).filter (fun e => decide (e.evId = k))).length
        = 0 := by
      rw [List.length_eq_zero]
      refine List.filter_eq_nil_iff.mpr ?_
      intro e he
      rcases List.mem_map.mp he with ⟨j, hj, rfl⟩
      have hj' := (geo_mem_clearedKeys T S j).mp hj
      have hjk : ¬ ((GeoLoc.Ev.cleared j).evId = k) := by
        show ¬ (j = k)
        intro hjk
        exact hj'.2 (hjk ▸ hS)
      simp [hjk]
    have h1 := geo_evList_filter_length T (GeoLoc.mkScope S) k
    have h2 := geo_filter_eq_length_nodup ((GeoLoc.mkScope S).map Prod.fst) k
      (geo_mkScope_nodup_keys S)
    omega
  · have h0 : ((GeoLoc.mkScope S).map Prod.fst).filter
        (fun j => decide (j = k)) = [] := by
      refine List.filter_eq_nil_iff.mpr ?_
      intro j hj
      have hjk : j ≠ k := fun hjk => hS (hjk ▸ hj)
      simp [hjk]
    have h1 := geo_evList_filter_length T (GeoLoc.mkScope S) k
    rw [h0] at h1
    simp only [List.length_nil, Nat.le_zero] at h1
    have heq : ((((T.map Prod.fst).filter
        (fun j => (GeoLoc.alookup (GeoLoc.mkScope S) j).isNone)).map
          GeoLoc.Ev.cleared).filter (fun e => decide (e.evId = k)))
        = (((T.map Prod.fst).filter
            (fun j => (GeoLoc.alookup (GeoLoc.mkScope S) j).isNone)).filter
              (fun j => decide (j = k))).map GeoLoc.Ev.cleared := by
      rw [List.filter_map]
      rfl
    have h2 := geo_filter_eq_length_nodup
      ((T.map Prod.fst).filter
        (fun j => (GeoLoc.alookup (GeoLoc.mkScope S) j).isNone)) k
      (hT.filter _)
    rw [heq, List.length_map]
    omega

/-- Witness for C5 at a concrete pass: one tracked id "A", a new in-scope
id "B". -/
theorem C5_at_most_one_event_per_id_witness :
    (([("A", GeoLoc.sig0)] : List GeoLoc.KV).map Prod.fst).Nodup ∧
    ((GeoLoc.diffPass [("A", GeoLoc.sig0)] [("B", GeoLoc.sig0)]).2.filter
        (fun e => decide (e.evId = "A"))).length ≤ 1 :=
  ⟨by decide,
    C5_at_most_one_event_per_id [("A", GeoLoc.sig0)] [("B", GeoLoc.sig0)] "A"
      (by decide)⟩

/-- C6: running the diff pass a second time with an in-scope snapshot
identical to the previous one emits zero transition events on the second
pass — the first pass rewrote every in-scope id's stored data (even without
significant changes), so the second pass finds every id tracked with equal
significant attributes and no id out of scope. -/
theorem C6_second_identical_pass_no_events (T S : List GeoLoc.KV) :
    (GeoLoc.diffPass (GeoLoc.diffPass T S).1 S).2 = [] := by
  rw [geo_diffPass_snd]
  have hev : (GeoLoc.mkScope S).filterMap
      (GeoLoc.evOf (GeoLoc.diffPass T S).1) = [] := by
    refine List.filterMap_eq_nil_iff.mpr ?_
    intro kv hkv
    have hmem : kv.1 ∈ (GeoLoc.mkScope S).map Prod.fst :=
      List.mem_map_of_mem Prod.fst hkv
    have hnotcl : kv.1 ∉ (T.map Prod.fst).filter
        (fun j => (GeoLoc.alookup (GeoLoc.mkScope S) j).isNone) := by
      intro hc
      exact ((geo_mem_clearedKeys T S kv.1).mp hc).2 hmem
    have hstep1 := geo_alookup_filter_key
      (fun j => decide (j ∉ (T.map Prod.fst).filter
        (fun i => (GeoLoc.alookup (GeoLoc.mkScope S) i).isNone)))
      kv.1 (by simp [hnotcl]) ((GeoLoc.mkScope S).foldl GeoLoc.dictInsert T)
    have hstep2 := geo_alookup_foldl_dictInsert_mem (GeoLoc.mkScope S) T kv.1
      (geo_mkScope_nodup_keys S) hmem
    have hstep3 := geo_alookup_mem_nodup (GeoLoc.mkScope S)
      (geo_mkScope_nodup_keys S) kv hkv
    have hlk : GeoLoc.alookup (GeoLoc.diffPass T S).1 kv.1 = some kv.2 := by
      rw [geo_diffPass_fst]
      exact hstep1.trans (hstep2.trans hstep3)
    unfold GeoLoc.evOf
    rw [hlk]
    simp
  have hcl : ((GeoLoc.diffPass T S).1.map Prod.fst).filter
      (fun j => (GeoLoc.alookup (GeoLoc.mkScope S) j).isNone) = [] := by
    refine List.filter_eq_nil_iff.mpr ?_
    intro j hj
    have hj' : j ∈ (GeoLoc.mkScope S).map Prod.fst :=
      (geo_diffPass_keys T S j).mp hj
    have hne : GeoLoc.alookup (GeoLoc.mkScope S) j ≠ none := by
      intro hc
      exact (geo_alookup_eq_none (GeoLoc.mkScope S) j).mp hc hj'
    simp [Option.isNone_iff_eq_none, hne]
  rw [hev, hcl]
  simp

/-- `atan2` of a point on the positive x-axis direction: angle zero. -/
theorem util_atan2_zero_one : Util.atan2 0 1 = 0 := by
  unfold Util.atan2
  rw [if_pos one_pos]
  norm_num [Real.arctan_zero]

/-- `atan2` is nonnegative on the closed upper half plane. -/
theorem util_atan2_nonneg (y x : ℝ) (hy : 0 ≤ y) : 0 ≤ Util.atan2 y x := by
  unfold Util.atan2
  by_cases hx : 0 < x
  · rw [if_pos hx]
    have h := Real.arctan_strictMono.monotone (div_nonneg hy hx.le)
    rw [Real.arctan_zero] at h
    exact h
  · rw [if_neg hx]
    by_cases hx2 : x < 0
    · rw [if_pos hx2, if_pos hy]
      have h1 := Real.neg_pi_div_two_lt_arctan (y / x)
      have h2 := Real.pi_pos
      linarith
    · rw [if_neg hx2]
      by_cases hy2 : 0 < y
      · rw [if_pos hy2]
        have := Real.pi_pos
        linarith
      · rw [if_neg hy2, if_neg (by linarith : ¬ y < 0)]

/-- The haversine kilometre distance between a point and itself is zero. -/
theorem util_havReal_self (a o : ℝ) : Util.havReal a o a o = 0 := by
  unfold Util.havReal
  simp only [sub_self]
  norm_num [Real.sin_zero, Real.sqrt_zero, Real.sqrt_one, util_atan2_zero_one]

/-- The haversine kilometre distance is nonnegative. -/
theorem util_havReal_nonneg (lat1 lon1 lat2 lon2 : ℝ) :
    0 ≤ Util.havReal lat1 lon1 lat2 lon2 := by
  unfold Util.havReal
  dsimp only
  refine mul_nonneg (by norm_num) (mul_nonneg (by norm_num) ?_)
  exact util_atan2_nonneg _ _ (Real.sqrt_nonneg _)

/-- The distance function never goes below zero, also in its
infinite-missing-coordinate cases. -/
theorem util_haversine_nonneg (lat1 lon1 lat2 lon2 : Option ℝ) :
    (0 : EReal) ≤ Util.haversine_distance lat1 lon1 lat2 lon2 := by
  cases lat1 <;> cases lon1 <;> cases lat2 <;> cases lon2 <;>
    simp only [Util.haversine_distance] <;> try exact le_top
  rw [← EReal.coe_zero, EReal.coe_le_coe_iff]
  exact util_havReal_nonneg _ _ _ _

/-- C9: when any coordinate is absent, `haversine_distance` returns
positive infinity without raising, and the result can never satisfy
`distance ≤ radius` for any finite radius. -/
theorem C9_haversine_none_infinite (lat1 lon1 lat2 lon2 : Option ℝ)
    (h : lat1 = none ∨ lon1 = none ∨ lat2 = none ∨ lon2 = none) :
    Util.haversine_distance lat1 lon1 lat2 lon2 = ⊤ ∧
    ∀ r : ℝ, ¬ (Util.haversine_distance lat1 lon1 lat2 lon2 ≤ (r : EReal)) := by
  have htop : Util.haversine_distance lat1 lon1 lat2 lon2 = ⊤ := by
    cases lat1 <;> cases lon1 <;> cases lat2 <;> cases lon2 <;>
      simp_all [Util.haversine_distance]
  refine ⟨htop, ?_⟩
  intro r hle
  rw [htop] at hle
  exact EReal.coe_ne_top r (top_le_iff.mp hle)

/-- Witness for C9 with the first latitude absent. -/
theorem C9_haversine_none_infinite_witness :
    ((none : Option ℝ) = none ∨ (some (0:ℝ)) = none ∨ (some (0:ℝ)) = none ∨
      (some (0:ℝ)) = none) ∧
    (Util.haversine_distance none (some 0) (some 0) (some 0) = ⊤ ∧
      ∀ r : ℝ, ¬ (Util.haversine_distance none (some 0) (some 0) (some 0)
        ≤ (r : EReal))) :=
  ⟨Or.inl rfl,
    C9_haversine_none_infinite none (some 0) (some 0) (some 0) (Or.inl rfl)⟩

/-- The geo_location home check as an existential over the optional home
point. -/
theorem geo_nearHome_iff (homeLat homeLon : Option ℝ) (homeR : ℝ)
    (hLat hLon : Option ℝ) :
    GeoLoc.geoNearHome homeLat homeLon homeR hLat hLon
      ↔ ∃ a b, homeLat = some a ∧ homeLon = some b ∧
          Util.haversine_distance (some a) (some b) hLat hLon
            ≤ (homeR : EReal) := by
  cases homeLat with
  | none => simp [GeoLoc.geoNearHome]
  | some a =>
    cases homeLon with
    | none => simp [GeoLoc.geoNearHome]
    | some b => simp [GeoLoc.geoNearHome]

/-- Scaling the sensor's metre distance back to kilometres. -/
theorem sensor_dist_km (a b la lo : ℝ) :
    (1000 * Util.havReal a b la lo) / 1000 = Util.havReal a b la lo := by
  field_simp

/-- The sensor's metre-distance comparison is the kilometre comparison. -/
theorem sensor_dist_iff (a b la lo r : ℝ) :
    (∃ d, Sensor.locDistanceM a b la lo = some d ∧ d / 1000 ≤ r)
      ↔ Util.havReal a b la lo ≤ r := by
  constructor
  · rintro ⟨d, hd, hle⟩
    rw [Sensor.locDistanceM] at hd
    injection hd with hd
    rw [← hd, sensor_dist_km] at hle
    exact hle
  · intro h
    exact ⟨1000 * Util.havReal a b la lo, rfl, by rw [sensor_dist_km]; exact h⟩

/-- The sensor home check as an existential, with the radius guard. -/
theorem sensor_nearHome_iff (homeLat homeLon : Option ℝ) (homeR devR : ℝ)
    (trackers : List Sensor.TrackerLoc) (la lo : ℝ) :
    Sensor.nearHome ⟨homeLat, homeLon, homeR, trackers, devR⟩ la lo
      ↔ ∃ a b, homeLat = some a ∧ homeLon = some b ∧ 0 < homeR ∧
          Util.havReal a b la lo ≤ homeR := by
  cases homeLat with
  | none => simp [Sensor.nearHome]
  | some a =>
    cases homeLon with
    | none => simp [Sensor.nearHome]
    | some b =>
      rw [show Sensor.nearHome ⟨some a, some b, homeR, trackers, devR⟩ la lo
          = (0 < homeR ∧ ∃ d, Sensor.locDistanceM a b la lo = some d ∧
              d / 1000 ≤ homeR) from rfl]
      constructor
      · rintro ⟨h0, hd⟩
        exact ⟨a, b, rfl, rfl, h0, (sensor_dist_iff a b la lo homeR).mp hd⟩
      · rintro ⟨a2, b2, ha, hb, h0, hle⟩
        injection ha with ha
        injection hb with hb
        subst ha
        subst hb
        exact ⟨h0, (sensor_dist_iff a b la lo homeR).mpr hle⟩

/-- Short-circuited disjunction is plain disjunction. -/
theorem geo_or_not_and (A B : Prop) : (A ∨ (¬ A ∧ B)) ↔ (A ∨ B) := by tauto

/-- C7 counterexample: for the count sensor with home radius 0 and a hazard
exactly at the home coordinates, the great-circle distance to the home
reference point is ≤ its radius (0 ≤ 0, the inclusive boundary case), yet
the record is not counted as nearby: the sensor's `radius > 0` guard makes
the if-and-only-if of the claim fail at radius 0. -/
theorem C7_counterexample_sensor_zero_radius :
    (∃ d, Sensor.locDistanceM 0 0 0 0 = some d ∧ d / 1000 ≤ (0:ℝ)) ∧
    ¬ Sensor.isNearby ⟨some 0, some 0, 0, [], 0⟩ 0 0 := by
  constructor
  · exact ⟨1000 * Util.havReal 0 0 0 0, rfl,
      by rw [sensor_dist_km, util_havReal_self]⟩
  · intro h
    rcases h with h | ⟨_, h⟩
    · rcases (sensor_nearHome_iff (some 0) (some 0) 0 0 [] 0 0).mp h
        with ⟨a, b, _, _, h0, _⟩
      exact lt_irrefl 0 h0
    · rcases h with ⟨h0, _⟩
      exact lt_irrefl 0 h0

/-- C7 amended: with valid point coordinates, a record is in scope in
geo_location exactly when its haversine distance to the home point (if
present) or to some tracked device is ≤ that point's radius — with no
positivity requirement on radii; in the count sensor the same equivalence
holds only with the additional requirement that the matching point's
radius is > 0 (and that a tracker reports truthy coordinates). -/
theorem C7_in_scope_iff_within_radius (homeLat homeLon : Option ℝ)
    (homeR devR : ℝ) (devices : List (ℝ × ℝ))
    (trackers : List Sensor.TrackerLoc) (la lo : ℝ) :
    (GeoLoc.geoInScope homeLat homeLon homeR devices devR (some la) (some lo)
      ↔ ((∃ a b, homeLat = some a ∧ homeLon = some b ∧
            Util.haversine_distance (some a) (some b) (some la) (some lo)
              ≤ (homeR : EReal)) ∨
          (∃ d ∈ devices,
            Util.haversine_distance (some d.1) (some d.2) (some la) (some lo)
              ≤ (devR : EReal)))) ∧
    (Sensor.isNearby ⟨homeLat, homeLon, homeR, trackers, devR⟩ la lo
      ↔ ((∃ a b, homeLat = some a ∧ homeLon = some b ∧ 0 < homeR ∧
            Util.havReal a b la lo ≤ homeR) ∨
          (0 < devR ∧ ∃ t ∈ trackers, ∃ a b, t.lat = some a ∧ t.lon = some b ∧
            a ≠ 0 ∧ b ≠ 0 ∧ Util.havReal a b la lo ≤ devR))) := by
  constructor
  · rw [show GeoLoc.geoInScope homeLat homeLon homeR devices devR
        (some la) (some lo)
        = (GeoLoc.geoNearHome homeLat homeLon homeR (some la) (some lo) ∨
          (¬ GeoLoc.geoNearHome homeLat homeLon homeR (some la) (some lo) ∧
            GeoLoc.geoNearDevice devices devR (some la) (some lo))) from rfl]
    rw [geo_or_not_and, geo_nearHome_iff]
    rw [show GeoLoc.geoNearDevice devices devR (some la) (some lo)
        = ∃ d ∈ devices,
            Util.haversine_distance (some d.1) (some d.2) (some la) (some lo)
              ≤ (devR : EReal) from rfl]
  · rw [show Sensor.isNearby ⟨homeLat, homeLon, homeR, trackers, devR⟩ la lo
        = (Sensor.nearHome ⟨homeLat, homeLon, homeR, trackers, devR⟩ la lo ∨
          (¬ Sensor.nearHome ⟨homeLat, homeLon, homeR, trackers, devR⟩ la lo ∧
            Sensor.nearDevice ⟨homeLat, homeLon, homeR, trackers, devR⟩ la lo))
        from rfl]
    rw [geo_or_not_and, sensor_nearHome_iff]
    have hdev : Sensor.nearDevice ⟨homeLat, homeLon, homeR, trackers, devR⟩ la lo
        ↔ (0 < devR ∧ ∃ t ∈ trackers, ∃ a b, t.lat = some a ∧ t.lon = some b ∧
            a ≠ 0 ∧ b ≠ 0 ∧ Util.havReal a b la lo ≤ devR) := by
      rw [show Sensor.nearDevice ⟨homeLat, homeLon, homeR, trackers, devR⟩ la lo
          = (0 < devR ∧ ∃ t ∈ trackers, ∃ a b, t.lat = some a ∧ t.lon = some b ∧
              a ≠ 0 ∧ b ≠ 0 ∧
              ∃ d, Sensor.locDistanceM a b la lo = some d ∧ d / 1000 ≤ devR)
          from rfl]
      rw [and_congr_right_iff]
      intro _
      constructor
      · rintro ⟨t, ht, a, b, h1, h2, h3, h4, h5⟩
        exact ⟨t, ht, a, b, h1, h2, h3, h4, (sensor_dist_iff a b la lo devR).mp h5⟩
      · rintro ⟨t, ht, a, b, h1, h2, h3, h4, h5⟩
        exact ⟨t, ht, a, b, h1, h2, h3, h4, (sensor_dist_iff a b la lo devR).mpr h5⟩
    rw [hdev]

/-- C8 counterexample: in geo_location a home point with radius 0 is NOT
disabled — a hazard exactly at the home coordinates (distance 0) still
qualifies as in scope via that point, because the scope check has no
`radius > 0` guard and uses an inclusive comparison. -/
theorem C8_counterexample_geo_zero_radius :
    GeoLoc.geoInScope (some 0) (some 0) 0 [] 0 (some 0) (some 0) := by
  refine Or.inl ?_
  show Util.haversine_distance (some 0) (some 0) (some 0) (some 0)
    ≤ ((0:ℝ) : EReal)
  have h : Util.haversine_distance (some 0) (some 0) (some 0) (some 0)
      = ((0:ℝ) : EReal) := by
    simp [Util.haversine_distance, util_havReal_self]
  rw [h]

/-- C8 amended: in the count sensor a reference point with radius ≤ 0 is
disabled (its guard is `radius > 0`); in geo_location there is no guard, so
only a strictly negative radius disables a point (distance is nonnegative),
while radius exactly 0 still admits a record at distance exactly 0. -/
theorem C8_nonpositive_radius_disables (homeLat homeLon : Option ℝ)
    (homeR devR : ℝ) (devices : List (ℝ × ℝ))
    (trackers : List Sensor.TrackerLoc) (la lo : ℝ) (hLat hLon : Option ℝ) :
    (homeR ≤ 0 →
      ¬ Sensor.nearHome ⟨homeLat, homeLon, homeR, trackers, devR⟩ la lo) ∧
    (devR ≤ 0 →
      ¬ Sensor.nearDevice ⟨homeLat, homeLon, homeR, trackers, devR⟩ la lo) ∧
    (homeR < 0 → ¬ GeoLoc.geoNearHome homeLat homeLon homeR hLat hLon) ∧
    (devR < 0 → ¬ GeoLoc.geoNearDevice devices devR hLat hLon) := by
  refine ⟨?_, ?_, ?_, ?_⟩
  · intro hr h
    rcases (sensor_nearHome_iff homeLat homeLon homeR devR trackers la lo).mp h
      with ⟨a, b, _, _, h0, _⟩
    linarith
  · intro hr h
    rcases h with ⟨h0, _⟩
    linarith
  · intro hr h
    rcases (geo_nearHome_iff homeLat homeLon homeR hLat hLon).mp h
      with ⟨a, b, _, _, hle⟩
    have hnn := util_haversine_nonneg (some a) (some b) hLat hLon
    have hlt : ((homeR : ℝ) : EReal) < ((0:ℝ) : EReal) :=
      EReal.coe_lt_coe_iff.mpr hr
    rw [EReal.coe_zero] at hlt
    exact absurd (lt_of_le_of_lt (le_trans hnn hle) hlt) (lt_irrefl _)
  · intro hr h
    rcases h with ⟨d, _, hle⟩
    have hnn := util_haversine_nonneg (some d.1) (some d.2) hLat hLon
    have hlt : ((devR : ℝ) : EReal) < ((0:ℝ) : EReal) :=
      EReal.coe_lt_coe_iff.mpr hr
    rw [EReal.coe_zero] at hlt
    exact absurd (lt_of_le_of_lt (le_trans hnn hle) hlt) (lt_irrefl _)

/-- Witness for C8 at radius -1 on all four guards. -/
theorem C8_nonpositive_radius_disables_witness :
    ((-1 : ℝ) ≤ 0) ∧ ((-1 : ℝ) < 0) ∧
    (¬ Sensor.nearHome ⟨some 0, some 0, -1, [], -1⟩ 0 0) ∧
    (¬ Sensor.nearDevice ⟨some 0, some 0, -1, [], -1⟩ 0 0) ∧
    (¬ GeoLoc.geoNearHome (some 0) (some 0) (-1) (some 0) (some 0)) ∧
    (¬ GeoLoc.geoNearDevice [] (-1) (some 0) (some 0)) :=
  ⟨neg_nonpos.mpr zero_le_one, neg_lt_zero.mpr zero_lt_one,
    (C8_nonpositive_radius_disables (some 0) (some 0) (-1) (-1) [] [] 0 0
      (some 0) (some 0)).1 (neg_nonpos.mpr zero_le_one),
    (C8_nonpositive_radius_disables (some 0) (some 0) (-1) (-1) [] [] 0 0
      (some 0) (some 0)).2.1 (neg_nonpos.mpr zero_le_one),
    (C8_nonpositive_radius_disables (some 0) (some 0) (-1) (-1) [] [] 0 0
      (some 0) (some 0)).2.2.1 (neg_lt_zero.mpr zero_lt_one),
    (C8_nonpositive_radius_disables (some 0) (some 0) (-1) (-1) [] [] 0 0
      (some 0) (some 0)).2.2.2 (neg_lt_zero.mpr zero_lt_one)⟩

/-- C10: the per-hazard-type count sensor's value is a natural number for
every coordinator data shape (never None, never an exception in the
model, where a raising record is the `bad` entry): absent data and a
non-list `features` value yield 0, and a record whose processing raises is
skipped without affecting the count of the remaining records. -/
theorem C10_sensor_count_total (cfg : Sensor.SensorCfg) (htype : String) :
    Sensor.native_value cfg htype .noData = 0 ∧
    Sensor.native_value cfg htype .badFeatures = 0 ∧
    (∀ l1 l2 : List Sensor.RawHazard,
      Sensor.native_value cfg htype (.features (l1 ++ .bad :: l2))
        = Sensor.native_value cfg htype (.features (l1 ++ l2))) := by
  refine ⟨rfl, rfl, ?_⟩
  intro l1 l2
  show ((l1 ++ .bad :: l2).foldl (Sensor.countStep cfg htype) (0, [])).1
    = ((l1 ++ l2).foldl (Sensor.countStep cfg htype) (0, [])).1
  rw [List.foldl_append, List.foldl_cons, List.foldl_append]
  rfl
